import Mathlib

/-!
# Verification of the gpiocdev uAPI / Request core

A shallow embedding of the gpiocdev line-I/O core: the ABI codec (v1/v2),
the ABI negotiator, the line resolver, the Request lifecycle with value
I/O, the edge-event stream, and the consumer-label buffer conversion.

The crates implementing the core (`gpiocdev`, `gpiocdev-uapi`) are not
present in this source snapshot; only their callers are (the CLI `get`
command, the uAPI benches, and the blinker example).  Definitions for the
missing parts are therefore modelled from the specification, and their doc
comments say so.  Facts that the present sources do pin down — such as the
maximum request length of 64 lines for both ABI versions, exercised by
`v1::request_maxlen` and `v2::request_maxlen` in `src/uapi/benches/request.rs`
— are taken from those sources.
-/

namespace Gpiocdev

/-- A line offset within one chip (`gpiocdev::line::Offset`). -/
abbrev Offset := Nat

/-- Logical line state (`gpiocdev::line::Value`): Active/Inactive. -/
inductive Value where
  | inactive
  | active
deriving DecidableEq, Repr

/-- Modelled from the spec: line direction (input/output) of `LineConfig`. -/
inductive Direction where
  | input
  | output
deriving DecidableEq, Repr

/-- Modelled from the spec: bias setting of `LineConfig`
(pull-up / pull-down / disabled / unspecified). -/
inductive Bias where
  | unspecified
  | pullUp
  | pullDown
  | disabled
deriving DecidableEq, Repr

/-- Modelled from the spec: edge-detection mode of `LineConfig`
(none / rising / falling / both). -/
inductive EdgeDetection where
  | none
  | rising
  | falling
  | both
deriving DecidableEq, Repr

/-- Modelled from the spec: `LineConfig` — per-line-group desired
attributes: direction, active-low flag, bias, debounce period
(microseconds, 0 meaning no debounce), edge-detection mode, and the
output value for outputs. -/
structure LineConfig where
  direction : Direction
  activeLow : Bool
  bias : Bias
  debouncePeriodUs : Nat
  edgeDetection : EdgeDetection
  outputValue : Value
deriving DecidableEq, Repr

/-- Modelled from the spec: the error kinds of §7 that the embedded
operations return. -/
inductive Err where
  | notFound (ident : String)
  | ambiguousIdentifier (ident : String)
  | invalidArgument
  | unsupported
  | busy
  | permissionDenied
  | closed
  | protocolError
  | noUsableAbi
  | duplicateName (ident : String) (chipPaths : List String)
deriving DecidableEq, Repr

/-! ## ABI Codec, v1 layout

The v1 wire format is the fixed-layout GET_LINEHANDLE / GET_LINEEVENT
pair: fixed-size arrays sized to a hard maximum line count; a request
carries exactly `num_lines` valid entries in the low-indexed slots; all
requested lines share one set of direction/bias/active-low flags. -/

/-- Maximum number of lines per v1 request.  Taken from the source:
`v1::request_maxlen` in `src/uapi/benches/request.rs` requests 64 lines
as "the maximum number of lines". -/
def v1MaxLines : Nat := 64

/-- Maximum number of lines per v2 request.  Taken from the source:
`v2::request_maxlen` in `src/uapi/benches/request.rs` requests 64 lines
as the "maximum number of lines" (the spec's overview likewise says the
newer protocol supports "up to 64 lines per request"). -/
def v2MaxLines : Nat := 64

/-- v1 handle-request flag bits (`HandleRequestFlags`), mirroring the
kernel layout: INPUT, OUTPUT, ACTIVE_LOW and the bias bits. -/
def V1_INPUT : Nat := 1
def V1_OUTPUT : Nat := 2
def V1_ACTIVE_LOW : Nat := 4
def V1_BIAS_PULL_UP : Nat := 32
def V1_BIAS_PULL_DOWN : Nat := 64
def V1_BIAS_DISABLE : Nat := 128

/-- v1 event-request flag bits (GET_LINEEVENT style): rising / falling. -/
def V1_EVENT_RISING : Nat := 1
def V1_EVENT_FALLING : Nat := 2

/-- Modelled from the spec: the v1 fixed-layout request structure
(`gpiocdev_uapi::v1::HandleRequest` together with its GET_LINEEVENT-style
edge flags).  `offsets` is a fixed array of `v1MaxLines` entries with the
`num_lines` valid ones in the low-indexed slots; reserved slots are
zero-initialised. -/
structure V1Wire where
  offsets : List Nat
  handleflags : Nat
  eventflags : Nat
  num_lines : Nat
deriving DecidableEq, Repr

/-- Flag bits shared by all lines of a v1 request, from the config's
direction, active-low flag and bias. -/
def v1HandleFlags (c : LineConfig) : Nat :=
  (match c.direction with
   | .input => V1_INPUT
   | .output => V1_OUTPUT)
  + (if c.activeLow then V1_ACTIVE_LOW else 0)
  + (match c.bias with
     | .unspecified => 0
     | .pullUp => V1_BIAS_PULL_UP
     | .pullDown => V1_BIAS_PULL_DOWN
     | .disabled => V1_BIAS_DISABLE)

/-- Edge flags of the v1 event-request structure, from the config's
edge-detection mode. -/
def v1EventFlags (c : LineConfig) : Nat :=
  match c.edgeDetection with
  | .none => 0
  | .rising => V1_EVENT_RISING
  | .falling => V1_EVENT_FALLING
  | .both => V1_EVENT_RISING + V1_EVENT_FALLING

/-- Modelled from the spec: v1 encoding of a `LineConfig` and offset set
into the fixed wire layout.  Fails with `invalidArgument` if the number
of lines exceeds the v1 cap, and with `unsupported` if a debounce period
is requested — the v1 layout carries no debounce field. -/
def encodeV1 (c : LineConfig) (offs : List Nat) : Except Err V1Wire :=
  if offs.length > v1MaxLines then .error .invalidArgument
  else if c.debouncePeriodUs ≠ 0 then .error .unsupported
  else .ok { offsets := offs ++ List.replicate (v1MaxLines - offs.length) 0
           , handleflags := v1HandleFlags c
           , eventflags := v1EventFlags c
           , num_lines := offs.length }

/-- Decoded semantic values of a request: direction, bias, debounce
period and edge-detection mode. -/
structure DecodedConfig where
  direction : Direction
  bias : Bias
  debouncePeriodUs : Nat
  edgeDetection : EdgeDetection
deriving DecidableEq, Repr

/-- Modelled from the spec: v1 decoding of the wire flags back to
semantic values.  The v1 layout has no debounce field, so the decoded
debounce period is 0. -/
def decodeV1 (w : V1Wire) : DecodedConfig :=
  { direction := if w.handleflags.testBit 1 then .output else .input
  , bias :=
      if w.handleflags.testBit 5 then .pullUp
      else if w.handleflags.testBit 6 then .pullDown
      else if w.handleflags.testBit 7 then .disabled
      else .unspecified
  , debouncePeriodUs := 0
  , edgeDetection :=
      if w.eventflags.testBit 0 then
        (if w.eventflags.testBit 1 then .both else .rising)
      else if w.eventflags.testBit 1 then .falling
      else .none }

/-- The valid offsets of a v1 wire structure: the `num_lines`
low-indexed slots. -/
def v1DecodeOffsets (w : V1Wire) : List Nat :=
  w.offsets.take w.num_lines

/-! ## ABI Codec, v2 layout

The v2 wire format carries a line count plus a list of offsets and a
list of attribute blocks; each block carries a bitmask of which
requested lines it applies to, and may carry flags, output values or a
debounce period. -/

/-- v2 line flag bits (`LineFlags`), mirroring the kernel layout:
ACTIVE_LOW, INPUT, OUTPUT, EDGE_RISING, EDGE_FALLING and the bias
bits. -/
def V2_ACTIVE_LOW : Nat := 2
def V2_INPUT : Nat := 4
def V2_OUTPUT : Nat := 8
def V2_EDGE_RISING : Nat := 16
def V2_EDGE_FALLING : Nat := 32
def V2_BIAS_PULL_UP : Nat := 256
def V2_BIAS_PULL_DOWN : Nat := 512
def V2_BIAS_DISABLED : Nat := 1024

/-- Modelled from the spec: one v2 attribute payload — flags for a
subset, output values for a subset, or a debounce period for a
subset. -/
inductive V2Attr where
  | flags (f : Nat)
  | values (bits : Nat)
  | debounce (periodUs : Nat)
deriving DecidableEq, Repr

/-- Modelled from the spec: a v2 attribute block — a bitmask naming
which of the requested lines it applies to, plus the attribute. -/
structure V2AttrBlock where
  mask : Nat
  attr : V2Attr
deriving DecidableEq, Repr

/-- Modelled from the spec: the v2 request structure
(`gpiocdev_uapi::v2::LineRequest` with its embedded `LineConfig`):
offsets, a line count, base flags shared by all lines, and the attribute
blocks. -/
structure V2Wire where
  offsets : List Nat
  num_lines : Nat
  flags : Nat
  attrs : List V2AttrBlock
deriving DecidableEq, Repr

/-- Base flag bits of a v2 request from the config. -/
def v2Flags (c : LineConfig) : Nat :=
  (match c.direction with
   | .input => V2_INPUT
   | .output => V2_OUTPUT)
  + (if c.activeLow then V2_ACTIVE_LOW else 0)
  + (match c.bias with
     | .unspecified => 0
     | .pullUp => V2_BIAS_PULL_UP
     | .pullDown => V2_BIAS_PULL_DOWN
     | .disabled => V2_BIAS_DISABLED)
  + (match c.edgeDetection with
     | .none => 0
     | .rising => V2_EDGE_RISING
     | .falling => V2_EDGE_FALLING
     | .both => V2_EDGE_RISING + V2_EDGE_FALLING)

/-- Modelled from the spec: v2 encoding of a `LineConfig` and offset set.
Fails with `invalidArgument` if the number of lines exceeds the v2 cap.
A nonzero debounce period becomes a debounce attribute block applying to
all requested lines. -/
def encodeV2 (c : LineConfig) (offs : List Nat) : Except Err V2Wire :=
  if offs.length > v2MaxLines then .error .invalidArgument
  else .ok { offsets := offs ++ List.replicate (v2MaxLines - offs.length) 0
           , num_lines := offs.length
           , flags := v2Flags c
           , attrs :=
               if c.debouncePeriodUs ≠ 0 then
                 [{ mask := 2 ^ offs.length - 1
                  , attr := .debounce c.debouncePeriodUs }]
               else [] }

/-- The debounce period a v2 wire structure carries: the period of its
first debounce attribute block, or 0 if none. -/
def v2DecodeDebounce : List V2AttrBlock → Nat
  | [] => 0
  | b :: rest =>
      match b.attr with
      | .debounce p => p
      | _ => v2DecodeDebounce rest

/-- Modelled from the spec: v2 decoding of the wire structure back to
semantic values. -/
def decodeV2 (w : V2Wire) : DecodedConfig :=
  { direction := if w.flags.testBit 3 then .output else .input
  , bias :=
      if w.flags.testBit 8 then .pullUp
      else if w.flags.testBit 9 then .pullDown
      else if w.flags.testBit 10 then .disabled
      else .unspecified
  , debouncePeriodUs := v2DecodeDebounce w.attrs
  , edgeDetection :=
      if w.flags.testBit 4 then
        (if w.flags.testBit 5 then .both else .rising)
      else if w.flags.testBit 5 then .falling
      else .none }

/-- The valid offsets of a v2 wire structure. -/
def v2DecodeOffsets (w : V2Wire) : List Nat :=
  w.offsets.take w.num_lines

/-- The semantic content of a `LineConfig` that the wire layouts carry. -/
def semantics (c : LineConfig) : DecodedConfig :=
  { direction := c.direction
  , bias := c.bias
  , debouncePeriodUs := c.debouncePeriodUs
  , edgeDetection := c.edgeDetection }

/-- Decoding the v1 flag fields recovers direction, bias and edge mode. -/
lemma decodeV1_mk (offs : List Nat) (n : Nat) (c : LineConfig) :
    decodeV1 { offsets := offs, handleflags := v1HandleFlags c
             , eventflags := v1EventFlags c, num_lines := n } =
    { direction := c.direction, bias := c.bias, debouncePeriodUs := 0
    , edgeDetection := c.edgeDetection } := by
  rcases c with ⟨d, al, b, du, e, ov⟩
  cases d <;> cases al <;> cases b <;> cases e <;>
    simp [decodeV1, v1HandleFlags, v1EventFlags, V1_INPUT, V1_OUTPUT,
      V1_ACTIVE_LOW, V1_BIAS_PULL_UP, V1_BIAS_PULL_DOWN, V1_BIAS_DISABLE,
      V1_EVENT_RISING, V1_EVENT_FALLING] <;> decide

/-- Decoding the v2 flag fields recovers direction, bias and edge mode;
the debounce period is read from the attribute blocks. -/
lemma decodeV2_mk (offs : List Nat) (n : Nat) (c : LineConfig)
    (attrs : List V2AttrBlock) :
    decodeV2 { offsets := offs, num_lines := n, flags := v2Flags c
             , attrs := attrs } =
    { direction := c.direction, bias := c.bias
    , debouncePeriodUs := v2DecodeDebounce attrs
    , edgeDetection := c.edgeDetection } := by
  rcases c with ⟨d, al, b, du, e, ov⟩
  cases d <;> cases al <;> cases b <;> cases e <;>
    simp [decodeV2, v2Flags, V2_ACTIVE_LOW, V2_INPUT, V2_OUTPUT,
      V2_EDGE_RISING, V2_EDGE_FALLING, V2_BIAS_PULL_UP, V2_BIAS_PULL_DOWN,
      V2_BIAS_DISABLED] <;> decide

/-- C1: For every valid LineConfig and every set of offsets within the
ABI's line-count limit, encoding the configuration through the Codec and
then decoding the result yields the original semantic values (direction,
bias, debounce period, edge-detection mode), for both the v1 and the v2
layout.  (A config with a nonzero debounce period is not valid for the
v1 layout, which carries no debounce field; its v1 encoding fails.) -/
theorem C1_codec_roundtrip (c : LineConfig) (offs : List Nat)
    (h2 : offs.length ≤ v2MaxLines) :
    (∃ w, encodeV2 c offs = .ok w ∧ decodeV2 w = semantics c ∧
      v2DecodeOffsets w = offs) ∧
    (c.debouncePeriodUs = 0 →
      ∃ w, encodeV1 c offs = .ok w ∧ decodeV1 w = semantics c ∧
        v1DecodeOffsets w = offs) := by
  have h64 : offs.length ≤ 64 := h2
  have hn2 : ¬ offs.length > v2MaxLines := by unfold v2MaxLines ; omega
  have hn1 : ¬ offs.length > v1MaxLines := by unfold v1MaxLines ; omega
  constructor
  · refine ⟨{ offsets := offs ++ List.replicate (v2MaxLines - offs.length) 0
            , num_lines := offs.length, flags := v2Flags c
            , attrs := if c.debouncePeriodUs ≠ 0 then
                [{ mask := 2 ^ offs.length - 1
                 , attr := .debounce c.debouncePeriodUs }]
              else [] }, ?_, ?_, ?_⟩
    · rw [encodeV2, if_neg hn2]
    · rw [decodeV2_mk]
      by_cases hd : c.debouncePeriodUs = 0 <;>
        simp [semantics, hd, v2DecodeDebounce]
    · simp [v2DecodeOffsets]
  · intro hd
    refine ⟨{ offsets := offs ++ List.replicate (v1MaxLines - offs.length) 0
            , handleflags := v1HandleFlags c, eventflags := v1EventFlags c
            , num_lines := offs.length }, ?_, ?_, ?_⟩
    · rw [encodeV1, if_neg hn1, if_neg (by simp [hd])]
    · rw [decodeV1_mk]
      simp [semantics, hd]
    · simp [v1DecodeOffsets]

/-- Witness for C1 at a concrete input: config input/active-low/pull-up,
no debounce, both edges; offsets `[1, 3]`. -/
theorem C1_codec_roundtrip_witness :
    ([1, 3] : List Nat).length ≤ v2MaxLines ∧
    ((∃ w, encodeV2 ⟨.input, true, .pullUp, 0, .both, .inactive⟩ [1, 3] = .ok w ∧
        decodeV2 w = semantics ⟨.input, true, .pullUp, 0, .both, .inactive⟩ ∧
        v2DecodeOffsets w = [1, 3]) ∧
     ((⟨.input, true, .pullUp, 0, .both, .inactive⟩ : LineConfig).debouncePeriodUs = 0 →
       ∃ w, encodeV1 ⟨.input, true, .pullUp, 0, .both, .inactive⟩ [1, 3] = .ok w ∧
         decodeV1 w = semantics ⟨.input, true, .pullUp, 0, .both, .inactive⟩ ∧
         v1DecodeOffsets w = [1, 3])) :=
  ⟨by decide, C1_codec_roundtrip _ [1, 3] (by decide)⟩

/-- C2 counterexample: the claim says v1's line cap is strictly smaller
than v2's, but both caps are 64 (both `request_maxlen` benches request
64 lines as the maximum), so v1's cap is not strictly smaller. -/
theorem C2_caps_counterexample :
    v1MaxLines = 64 ∧ v2MaxLines = 64 ∧ ¬ v1MaxLines < v2MaxLines := by
  refine ⟨rfl, rfl, ?_⟩
  decide

/-- C2 (amended): encoding fails with InvalidArgument whenever the
number of lines exceeds the ABI's fixed maximum; the v1 and v2 caps are
equal (both 64), so a request of 70 lines fails on a v1 chip with
InvalidArgument — and v2 would not allow it either. -/
theorem C2_encode_cap (c : LineConfig) (offs : List Nat) :
    (offs.length > v1MaxLines → encodeV1 c offs = .error .invalidArgument) ∧
    (offs.length > v2MaxLines → encodeV2 c offs = .error .invalidArgument) ∧
    v1MaxLines = v2MaxLines := by
  refine ⟨fun h => ?_, fun h => ?_, rfl⟩
  · rw [encodeV1, if_pos h]
  · rw [encodeV2, if_pos h]

/-- Witness for C2 at the spec's concrete scenario: a request of 70
lines fails on v1 with InvalidArgument (and on v2 as well). -/
theorem C2_encode_cap_witness :
    encodeV1 ⟨.input, false, .unspecified, 0, .none, .inactive⟩ (List.range 70)
      = .error .invalidArgument ∧
    encodeV2 ⟨.input, false, .unspecified, 0, .none, .inactive⟩ (List.range 70)
      = .error .invalidArgument := by
  have h := C2_encode_cap ⟨.input, false, .unspecified, 0, .none, .inactive⟩
    (List.range 70)
  exact ⟨h.1 (by simp [v1MaxLines]), h.2.1 (by simp [v2MaxLines])⟩

/-! ## Request: value I/O, active-low inversion, lifecycle

Modelled from the spec (§4.5): the `Request` object owns one active
reservation; its states are Active (kernel reservation held) and
Released (descriptor closed; terminal, all operations fail with
Closed).  Active-low inversion is applied inside `Request`, never inside
the Codec: raw kernel values are always physical-line-active==1. -/

/-- The kernel side seen through the reservation's descriptor: the
physical active state of each line.  Pure model of the simulated chip
the benches and tests drive. -/
structure SimKernel where
  physical : Nat → Bool

/-- The raw protocol value of a line, as the Codec carries it on the
wire: 1 exactly when the physical line is active.  The Codec never
consults any active-low attribute (this function does not even take a
`Request`). -/
def rawValue (k : SimKernel) (o : Nat) : Nat :=
  if k.physical o then 1 else 0

/-- The raw value buffer a value-read ioctl returns for a set of
offsets. -/
def rawGetValues (k : SimKernel) (offs : List Nat) : List Nat :=
  offs.map (rawValue k)

/-- Modelled from the spec: the lifecycle states of a `Request` after
construction — `active` (kernel reservation held) or `released`
(descriptor closed; terminal). -/
inductive ReqState where
  | active
  | released
deriving DecidableEq, Repr

/-- Modelled from the spec: a `Request` — the reserved offsets, each
line's active-low attribute, each line's output flag, and the lifecycle
state of its descriptor. -/
structure Request where
  offsets : List Nat
  activeLow : Nat → Bool
  isOutput : Nat → Bool
  state : ReqState

/-- Numeric form of a logical value (`u8::from(Value)`): Inactive is 0,
Active is 1. -/
def valueToNat : Value → Nat
  | .inactive => 0
  | .active => 1

/-- The logical value the Request layer reports for a raw wire value,
per the line's active-low attribute. -/
def logicalValue (raw : Nat) (al : Bool) : Value :=
  if (raw == 1) != al then .active else .inactive

/-- The raw wire value the Request layer sends for a logical value, per
the line's active-low attribute. -/
def rawFromLogical (v : Value) (al : Bool) : Nat :=
  if (v == .active) != al then 1 else 0

/-- Lookup in a `Values` collection (`Values::get(offset)`). -/
def valuesGet (vs : List (Nat × Value)) (o : Nat) : Option Value :=
  (vs.find? (fun p => p.1 == o)).map (·.2)

/-- Modelled from the spec: `Request::values` / `get_values` — on a
released request fails with Closed; on an active request reads the raw
values through the codec and reports one logical value per reserved
offset, applying each line's active-low inversion in this layer. -/
def getValues (k : SimKernel) (r : Request) :
    Except Err (List (Nat × Value)) :=
  match r.state with
  | .released => .error .closed
  | .active =>
      .ok (r.offsets.map (fun o =>
        (o, logicalValue (rawValue k o) (r.activeLow o))))

/-- Modelled from the spec: `Request::set_values` — on a released
request fails with Closed; fails with InvalidArgument if any named
offset is outside the reservation or not an output; otherwise yields the
raw wire values sent to the kernel, applying each line's active-low
inversion in this layer. -/
def setValues (r : Request) (vals : List (Nat × Value)) :
    Except Err (List (Nat × Nat)) :=
  match r.state with
  | .released => .error .closed
  | .active =>
      if vals.all (fun p => decide (p.1 ∈ r.offsets) && r.isOutput p.1) then
        .ok (vals.map (fun p => (p.1, rawFromLogical p.2 (r.activeLow p.1))))
      else .error .invalidArgument

/-- Looking up an offset in a per-offset map of values finds the value
computed for that offset. -/
lemma valuesGet_map (offs : List Nat) (f : Nat → Value) (o : Nat)
    (ho : o ∈ offs) :
    valuesGet (offs.map (fun x => (x, f x))) o = some (f o) := by
  induction offs with
  | nil => cases ho
  | cons a t ih =>
      by_cases h : a = o
      · subst h
        simp [valuesGet, List.find?]
      · rcases List.mem_cons.mp ho with h' | h'
        · exact absurd h'.symm h
        · have hb : ¬ ((a, f a).1 == o) = true := by simpa using h
          simp only [valuesGet, List.map_cons]
          rw [@List.find?_cons_of_neg _ (fun p => p.1 == o) (a, f a)
            (List.map (fun x => (x, f x)) t) hb]
          exact ih h'

/-- C3: for a line configured active-low in an active request, the
logical value reported by `get_values` (and the raw value `set_values`
sends for an accepted logical value) is the inversion of the raw kernel
value; the inversion happens in the Request layer, never in the Codec —
the raw protocol value is 1 exactly when the physical line is active, so
when the physical line is active an active-low line is reported
Inactive. -/
theorem C3_active_low_inversion (k : SimKernel) (r : Request) (o : Nat)
    (hact : r.state = .active) (ho : o ∈ r.offsets)
    (hal : r.activeLow o = true) :
    (∃ vs, getValues k r = .ok vs ∧
      ∃ v, valuesGet vs o = some v ∧
        valueToNat v = 1 - rawValue k o ∧
        (k.physical o = true → rawValue k o = 1 ∧ v = .inactive)) ∧
    (rawValue k o = 1 ↔ k.physical o = true) ∧
    (∀ w : Value, rawFromLogical w (r.activeLow o) = 1 - valueToNat w) := by
  refine ⟨⟨r.offsets.map (fun x =>
      (x, logicalValue (rawValue k x) (r.activeLow x))), ?_, ?_⟩, ?_, ?_⟩
  · simp [getValues, hact]
  · refine ⟨logicalValue (rawValue k o) (r.activeLow o), valuesGet_map _ _ _ ho, ?_, ?_⟩
    · by_cases hp : k.physical o <;>
        simp [logicalValue, rawValue, hp, hal, valueToNat]
    · intro hp
      simp [logicalValue, rawValue, hp, hal, valueToNat]
  · simp [rawValue]
  · intro w
    cases w <;> simp [rawFromLogical, hal, valueToNat]

/-- Witness for C3 at the spec's concrete scenario: offsets `{1, 3}`
requested, active-low on offset 3, physical line 3 driven active; the
reported value for offset 3 is Inactive while the raw protocol value for
offset 3 is 1. -/
theorem C3_active_low_inversion_witness :
    (∃ vs, getValues ⟨fun o => o == 3⟩
        ⟨[1, 3], fun o => o == 3, fun _ => false, .active⟩ = .ok vs ∧
      ∃ v, valuesGet vs 3 = some v ∧
        valueToNat v = 1 - rawValue ⟨fun o => o == 3⟩ 3 ∧
        ((⟨fun o => o == 3⟩ : SimKernel).physical 3 = true →
          rawValue ⟨fun o => o == 3⟩ 3 = 1 ∧ v = .inactive)) ∧
    (rawValue ⟨fun o => o == 3⟩ 3 = 1 ↔
      (⟨fun o => o == 3⟩ : SimKernel).physical 3 = true) ∧
    (∀ w : Value, rawFromLogical w
        ((⟨[1, 3], fun o => o == 3, fun _ => false, .active⟩ : Request).activeLow 3)
      = 1 - valueToNat w) :=
  C3_active_low_inversion ⟨fun o => o == 3⟩
    ⟨[1, 3], fun o => o == 3, fun _ => false, .active⟩ 3
    rfl (by simp) rfl

/-- C7: every operation on a released Request — in particular
`get_values`, and `set_values` likewise — fails with a Closed error. -/
theorem C7_released_fails_closed (k : SimKernel) (r : Request)
    (h : r.state = .released) (vals : List (Nat × Value)) :
    getValues k r = .error .closed ∧ setValues r vals = .error .closed := by
  constructor <;> simp [getValues, setValues, h]

/-- Witness for C7: a concrete released request; `get_values` and
`set_values` both fail with Closed. -/
theorem C7_released_fails_closed_witness :
    getValues ⟨fun _ => false⟩ ⟨[1], fun _ => false, fun _ => false, .released⟩
      = .error .closed ∧
    setValues ⟨[1], fun _ => false, fun _ => false, .released⟩ [(1, .active)]
      = .error .closed :=
  C7_released_fails_closed ⟨fun _ => false⟩
    ⟨[1], fun _ => false, fun _ => false, .released⟩ rfl [(1, .active)]

/-- C10: a successful `values()` call on an active Request returns a
collection with an entry for every requested offset, so `Values::get`
returns `some` for each of them. -/
theorem C10_values_cover_offsets (k : SimKernel) (r : Request)
    (hact : r.state = .active) :
    ∃ vs, getValues k r = .ok vs ∧
      ∀ o ∈ r.offsets, (valuesGet vs o).isSome := by
  refine ⟨r.offsets.map (fun x =>
      (x, logicalValue (rawValue k x) (r.activeLow x))), ?_, ?_⟩
  · simp [getValues, hact]
  · intro o ho
    rw [valuesGet_map _ _ _ ho]
    rfl

/-- Witness for C10: a concrete active request on offsets `{1, 3}`; the
returned collection answers `get` for both offsets. -/
theorem C10_values_cover_offsets_witness :
    ∃ vs, getValues ⟨fun _ => true⟩
        ⟨[1, 3], fun _ => false, fun _ => false, .active⟩ = .ok vs ∧
      ∀ o ∈ ([1, 3] : List Nat), (valuesGet vs o).isSome :=
  C10_values_cover_offsets ⟨fun _ => true⟩
    ⟨[1, 3], fun _ => false, fun _ => false, .active⟩ rfl

/-! ## ABI Negotiator -/

/-- The two kernel ABI generations (`gpiocdev::AbiVersion`). -/
inductive AbiVersion where
  | v1
  | v2
deriving DecidableEq, Repr

/-- Modelled from the spec: ABI negotiation
(`common::actual_abi_version` / the negotiator of §4.2).  `probeV2` and
`probeV1` are the outcomes of the minimal no-op-equivalent probe queries
against the chip.  A forced version is used without probing; otherwise
v2 is probed first, then v1; if neither succeeds the result is the
"no usable ABI" error. -/
def detectAbiVersion (forced : Option AbiVersion)
    (probeV2 probeV1 : Bool) : Except Err AbiVersion :=
  match forced with
  | some v => .ok v
  | none =>
      if probeV2 then .ok .v2
      else if probeV1 then .ok .v1
      else .error .noUsableAbi

/-- C6: ABI negotiation — a forced version is used without probing (the
result does not depend on the probe outcomes); otherwise v2 is selected
if its probe succeeds, then v1; if neither probe succeeds, negotiation
fails with the "no usable ABI" error. -/
theorem C6_abi_negotiation (forced : Option AbiVersion)
    (probeV2 probeV1 : Bool) :
    (∀ v, forced = some v → detectAbiVersion forced probeV2 probeV1 = .ok v) ∧
    (forced = none → probeV2 = true →
      detectAbiVersion forced probeV2 probeV1 = .ok .v2) ∧
    (forced = none → probeV2 = false → probeV1 = true →
      detectAbiVersion forced probeV2 probeV1 = .ok .v1) ∧
    (forced = none → probeV2 = false → probeV1 = false →
      detectAbiVersion forced probeV2 probeV1 = .error .noUsableAbi) := by
  refine ⟨fun v hv => ?_, fun hn h2 => ?_, fun hn h2 h1 => ?_,
    fun hn h2 h1 => ?_⟩ <;>
    simp [detectAbiVersion, *]

/-- Witness for C6: forcing v1 ignores the probes (both probes reporting
v2-available), and with no forced version and only the v1 probe
succeeding, v1 is selected. -/
theorem C6_abi_negotiation_witness :
    detectAbiVersion (some .v1) true true = .ok .v1 ∧
    detectAbiVersion none false true = .ok .v1 :=
  ⟨(C6_abi_negotiation (some .v1) true true).1 .v1 rfl,
   (C6_abi_negotiation none false true).2.2.1 rfl rfl rfl⟩

/-! ## Consumer label buffer -/

/-- Size in bytes of the fixed-size consumer-label buffer of the kernel
request structures (`gpiocdev_uapi::v1::Name` / `v2`'s consumer field);
32 bytes in the kernel ABI. -/
def consumerBufSize : Nat := 32

/-- Modelled from the spec: conversion of a caller's label into the
fixed-size null-terminated consumer buffer of the request structure (the
`.into()` used by the benches).  Bytes beyond what fits alongside the
terminating null are dropped silently; the remainder of the buffer is
zero-filled.  The conversion is total — it never reports an error. -/
def intoConsumer (label : List Nat) : List Nat :=
  let t := label.take (consumerBufSize - 1)
  t ++ List.replicate (consumerBufSize - t.length) 0

/-- C9: converting a consumer label longer than the fixed-size kernel
buffer into the request structure's consumer field silently truncates it
to the buffer size, keeps it null-terminated, and never returns an error
(the conversion is a total function).  The result always has exactly the
buffer's size, an over-long label is cut to the first
`consumerBufSize - 1` bytes followed by a terminating null byte, and the
stored bytes are a prefix of the label. -/
theorem C9_consumer_truncation (label : List Nat)
    (hlong : consumerBufSize ≤ label.length) :
    (intoConsumer label).length = consumerBufSize ∧
    intoConsumer label = label.take (consumerBufSize - 1) ++ [0] ∧
    (intoConsumer label).getLast? = some 0 ∧
    (label.take (consumerBufSize - 1)) <+: label := by
  have ht : (label.take (consumerBufSize - 1)).length = consumerBufSize - 1 := by
    rw [List.length_take]
    omega
  have heq : intoConsumer label = label.take (consumerBufSize - 1) ++ [0] := by
    rw [intoConsumer]
    rw [ht]
    norm_num [consumerBufSize]
  refine ⟨?_, heq, ?_, List.take_prefix _ _⟩
  · rw [heq, List.length_append, ht]
    norm_num [consumerBufSize]
  · rw [heq]
    simp

/-- Witness for C9: a 40-byte label is truncated to the first 31 bytes
plus a terminating null, filling the 32-byte buffer, with no error. -/
theorem C9_consumer_truncation_witness :
    consumerBufSize ≤ (List.replicate 40 7).length ∧
    (intoConsumer (List.replicate 40 7)).length = consumerBufSize ∧
    intoConsumer (List.replicate 40 7) =
      (List.replicate 40 7).take (consumerBufSize - 1) ++ [0] ∧
    (intoConsumer (List.replicate 40 7)).getLast? = some 0 ∧
    ((List.replicate 40 7).take (consumerBufSize - 1)) <+: List.replicate 40 7 :=
  ⟨by decide, C9_consumer_truncation (List.replicate 40 7) (by decide)⟩

/-! ## Line Resolver

Modelled from the spec (§4.4): the resolver turns a caller-ordered list
of line identifiers, plus an optional explicit chip restriction, into a
ResolvedPlan — one `(chip index, offset)` entry per identifier, in the
caller's order.  Chips are enumerated in stable path-lexicographic
order; resolution errors are aggregated. -/

/-- A chip as the resolver sees it: its device path and the name of each
line, indexed by offset. -/
structure SimChip where
  path : String
  lineNames : List String
deriving DecidableEq, Repr

/-- A caller-supplied line identifier: a textual name or a chip-relative
offset. -/
inductive LineId where
  | name (s : String)
  | offset (n : Nat)
deriving DecidableEq, Repr

/-- The text by which an identifier is reported in errors. -/
def LineId.text : LineId → String
  | .name s => s
  | .offset n => toString n

/-- The caller's duplicate-name policy: take the first match in stable
chip order, or fail on any duplicate. -/
inductive DupPolicy where
  | firstMatch
  | strict
deriving DecidableEq, Repr

/-- One entry of a ResolvedPlan (the CLI's `ChipOffset`): the index of
the chip and the offset within it. -/
structure ChipOffset where
  chip_idx : Nat
  offset : Nat
deriving DecidableEq, Repr

/-- All chips carrying a line of the given name, in enumeration order:
`(chip index, offset of the first line with that name, chip path)`. -/
def findName (chips : List SimChip) (s : String) :
    List (Nat × Nat × String) :=
  chips.enum.filterMap (fun p =>
    (p.2.lineNames.indexOf? s).map (fun off => (p.1, off, p.2.path)))

/-- Modelled from the spec: resolution of one identifier.  With an
explicit chip, numeric identifiers are offsets into that chip and names
must match exactly once within it; without a chip, numeric identifiers
are ambiguous, and a name is searched across chips in stable order —
not found anywhere fails naming the identifier, found on several chips
either takes the first chip or, under the strict policy, fails listing
every colliding chip's path. -/
def resolveOne (chips : List SimChip) (explicitChip : Option Nat)
    (pol : DupPolicy) : LineId → Except Err ChipOffset
  | .offset n =>
      match explicitChip with
      | some i =>
          match chips[i]? with
          | some c =>
              if n < c.lineNames.length then .ok ⟨i, n⟩
              else .error (.notFound (toString n))
          | none => .error (.notFound (toString n))
      | none => .error (.ambiguousIdentifier (toString n))
  | .name s =>
      match explicitChip with
      | some i =>
          match chips[i]? with
          | some c =>
              if c.lineNames.count s ≥ 2 then .error (.ambiguousIdentifier s)
              else
                match c.lineNames.indexOf? s with
                | some off => .ok ⟨i, off⟩
                | none => .error (.notFound s)
          | none => .error (.notFound s)
      | none =>
          match findName chips s, pol with
          | [], _ => .error (.notFound s)
          | [hit], _ => .ok ⟨hit.1, hit.2.1⟩
          | hit :: _ :: _, .firstMatch => .ok ⟨hit.1, hit.2.1⟩
          | hits, .strict => .error (.duplicateName s (hits.map (fun h => h.2.2)))

/-- Resolution of a list of identifiers, aggregating every failure: the
resolved entries in caller order, and every resolution error in caller
order. -/
def resolveLinesAux (chips : List SimChip) (explicitChip : Option Nat)
    (pol : DupPolicy) : List LineId → List ChipOffset × List Err
  | [] => ([], [])
  | lid :: rest =>
      let r := resolveLinesAux chips explicitChip pol rest
      match resolveOne chips explicitChip pol lid with
      | .ok co => (co :: r.1, r.2)
      | .error e => (r.1, e :: r.2)

/-- Modelled from the spec: `Resolver::resolve_lines` — succeeds with a
ResolvedPlan exactly when every identifier resolves, otherwise fails
with every resolution error aggregated. -/
def resolveLines (chips : List SimChip) (explicitChip : Option Nat)
    (pol : DupPolicy) (ids : List LineId) :
    Except (List Err) (List ChipOffset) :=
  let r := resolveLinesAux chips explicitChip pol ids
  if r.2.isEmpty then .ok r.1 else .error r.2

/-- Whether a resolution outcome is a success. -/
def isOkB : Except Err ChipOffset → Bool
  | .ok _ => true
  | .error _ => false

/-- A successful outcome carries a resolved entry. -/
lemma isOkB_eq_true {x : Except Err ChipOffset} (h : isOkB x = true) :
    ∃ co, x = .ok co := by
  cases x with
  | ok co => exact ⟨co, rfl⟩
  | error e => simp [isOkB] at h

/-- If every identifier resolves, the aggregate pass collects no error
and its entries correspond pointwise, in order, to the identifiers. -/
lemma resolveLinesAux_all_ok (chips : List SimChip)
    (explicitChip : Option Nat) (pol : DupPolicy) (ids : List LineId)
    (h : ∀ lid ∈ ids, ∃ co, resolveOne chips explicitChip pol lid = .ok co) :
    (resolveLinesAux chips explicitChip pol ids).2 = [] ∧
    List.Forall₂ (fun lid co => resolveOne chips explicitChip pol lid = .ok co)
      ids (resolveLinesAux chips explicitChip pol ids).1 := by
  induction ids with
  | nil => exact ⟨rfl, List.Forall₂.nil⟩
  | cons lid rest ih =>
      obtain ⟨co, hco⟩ := h lid (List.mem_cons_self _ _)
      obtain ⟨he, hf⟩ := ih (fun x hx => h x (List.mem_cons_of_mem _ hx))
      simp only [resolveLinesAux, hco]
      exact ⟨he, List.Forall₂.cons hco hf⟩

/-- An identifier that fails to resolve contributes its error to the
aggregate error list. -/
lemma resolveLinesAux_mem_err (chips : List SimChip)
    (explicitChip : Option Nat) (pol : DupPolicy) (ids : List LineId)
    (lid : LineId) (e : Err) (hmem : lid ∈ ids)
    (he : resolveOne chips explicitChip pol lid = .error e) :
    e ∈ (resolveLinesAux chips explicitChip pol ids).2 := by
  induction ids with
  | nil => cases hmem
  | cons x rest ih =>
      rcases List.mem_cons.mp hmem with h' | h'
      · subst h'
        simp only [resolveLinesAux, he]
        exact List.mem_cons_self _ _
      · have := ih h'
        simp only [resolveLinesAux]
        cases hx : resolveOne chips explicitChip pol x with
        | ok co => simpa using this
        | error e' => simpa using Or.inr this

/-- C4: for identifiers that all exist and are unambiguous, resolution
succeeds and the ResolvedPlan has exactly one entry per input
identifier, in the caller's original identifier order (the i-th plan
entry is the resolution of the i-th identifier); if any identifier does
not exist, resolution fails and the aggregated error names that
identifier. -/
theorem C4_resolver_totality (chips : List SimChip)
    (explicitChip : Option Nat) (pol : DupPolicy) (ids : List LineId) :
    ((∀ lid ∈ ids, isOkB (resolveOne chips explicitChip pol lid) = true) →
      ∃ plan, resolveLines chips explicitChip pol ids = .ok plan ∧
        plan.length = ids.length ∧
        List.Forall₂
          (fun lid co => resolveOne chips explicitChip pol lid = .ok co)
          ids plan) ∧
    (∀ lid ∈ ids,
      resolveOne chips explicitChip pol lid = .error (.notFound lid.text) →
      ∃ errs, resolveLines chips explicitChip pol ids = .error errs ∧
        Err.notFound lid.text ∈ errs) := by
  constructor
  · intro h
    obtain ⟨he, hf⟩ := resolveLinesAux_all_ok chips explicitChip pol ids
      (fun lid hl => isOkB_eq_true (h lid hl))
    refine ⟨(resolveLinesAux chips explicitChip pol ids).1, ?_, hf.length_eq.symm, hf⟩
    simp [resolveLines, he]
  · intro lid hmem he
    have hin := resolveLinesAux_mem_err chips explicitChip pol ids lid _ hmem he
    refine ⟨(resolveLinesAux chips explicitChip pol ids).2, ?_, hin⟩
    have hne : ¬ (resolveLinesAux chips explicitChip pol ids).2.isEmpty = true := by
      cases hx : (resolveLinesAux chips explicitChip pol ids).2 with
      | nil => rw [hx] at hin ; cases hin
      | cons a t => simp [hx]
    simp [resolveLines, hne]

/-- Witness for C4 on a concrete chip: names `B`, `A` both resolve, the
plan has one entry per identifier in caller order; the unknown name `Z`
makes resolution fail with an aggregated error naming `Z`. -/
theorem C4_resolver_totality_witness :
    (∃ plan, resolveLines [⟨"/dev/gpiochip0", ["A", "B", "C"]⟩] none
        .strict [LineId.name "B", LineId.name "A"] = .ok plan ∧
      plan.length = [LineId.name "B", LineId.name "A"].length ∧
      List.Forall₂
        (fun lid co => resolveOne [⟨"/dev/gpiochip0", ["A", "B", "C"]⟩] none
          .strict lid = .ok co)
        [LineId.name "B", LineId.name "A"] plan) ∧
    (∃ errs, resolveLines [⟨"/dev/gpiochip0", ["A", "B", "C"]⟩] none
        .strict [LineId.name "B", LineId.name "Z"] = .error errs ∧
      Err.notFound (LineId.name "Z").text ∈ errs) :=
  ⟨(C4_resolver_totality [⟨"/dev/gpiochip0", ["A", "B", "C"]⟩] none .strict
      [LineId.name "B", LineId.name "A"]).1 (by decide),
   (C4_resolver_totality [⟨"/dev/gpiochip0", ["A", "B", "C"]⟩] none .strict
      [LineId.name "B", LineId.name "Z"]).2 (LineId.name "Z")
      (by simp) (by rfl)⟩

/-- A name present in a list is found at some index by `indexOf?`. -/
lemma indexOf?_isSome_of_mem {s : String} {l : List String} (h : s ∈ l) :
    ∃ off, l.indexOf? s = some off := by
  cases hx : l.indexOf? s with
  | some off => exact ⟨off, rfl⟩
  | none =>
      have := List.indexOf?_eq_none_iff.mp hx s h
      simp at this

/-- C8: when two chips (enumerated in path-lexicographic order) expose
the same line name, resolving that name in duplicate-strict mode fails
with an error listing both colliding chips' paths, while in first-match
mode it succeeds deterministically, selecting the chip whose device path
is lexicographically first among the colliding chips. -/
theorem C8_duplicate_name_policy (c1 c2 : SimChip) (s : String)
    (h1 : s ∈ c1.lineNames) (h2 : s ∈ c2.lineNames)
    (hlt : c1.path < c2.path) :
    (∃ paths, resolveOne [c1, c2] none .strict (.name s)
        = .error (.duplicateName s paths) ∧
      c1.path ∈ paths ∧ c2.path ∈ paths) ∧
    (∃ co, resolveOne [c1, c2] none .firstMatch (.name s) = .ok co ∧
      co.chip_idx = 0 ∧
      ∀ q ∈ (findName [c1, c2] s).map (fun h => h.2.2), c1.path ≤ q) := by
  obtain ⟨o1, ho1⟩ := indexOf?_isSome_of_mem h1
  obtain ⟨o2, ho2⟩ := indexOf?_isSome_of_mem h2
  have hfn : findName [c1, c2] s = [(0, o1, c1.path), (1, o2, c2.path)] := by
    simp [findName, List.enum, List.enumFrom, ho1, ho2]
  constructor
  · refine ⟨[c1.path, c2.path], ?_, by simp, by simp⟩
    simp [resolveOne, hfn]
  · refine ⟨⟨0, o1⟩, ?_, rfl, ?_⟩
    · simp [resolveOne, hfn]
    · intro q hq
      rw [hfn] at hq
      simp only [List.map_cons, List.map_nil, List.mem_cons,
        List.not_mem_nil, or_false, List.mem_singleton] at hq
      rcases hq with h | h <;> subst h
      · exact le_refl _
      · exact le_of_lt hlt

/-- Witness for C8: two chips both exposing line name `X`; strict mode
fails listing both paths, first-match selects `/dev/gpiochip0`, the
lexicographically first. -/
theorem C8_duplicate_name_policy_witness :
    (∃ paths, resolveOne [⟨"/dev/gpiochip0", ["X"]⟩, ⟨"/dev/gpiochip1", ["X"]⟩]
        none .strict (.name "X") = .error (.duplicateName "X" paths) ∧
      (⟨"/dev/gpiochip0", ["X"]⟩ : SimChip).path ∈ paths ∧
      (⟨"/dev/gpiochip1", ["X"]⟩ : SimChip).path ∈ paths) ∧
    (∃ co, resolveOne [⟨"/dev/gpiochip0", ["X"]⟩, ⟨"/dev/gpiochip1", ["X"]⟩]
        none .firstMatch (.name "X") = .ok co ∧
      co.chip_idx = 0 ∧
      ∀ q ∈ (findName [⟨"/dev/gpiochip0", ["X"]⟩, ⟨"/dev/gpiochip1", ["X"]⟩]
          "X").map (fun h => h.2.2),
        (⟨"/dev/gpiochip0", ["X"]⟩ : SimChip).path ≤ q) :=
  C8_duplicate_name_policy ⟨"/dev/gpiochip0", ["X"]⟩ ⟨"/dev/gpiochip1", ["X"]⟩
    "X" (by simp) (by simp) (String.lt_iff_toList_lt.mpr (by decide))

/-! ## Edge Event Stream

Modelled from the spec (§4.6): events are delivered in the exact order
the kernel enqueued them; the decoded global sequence number is strictly
increasing per reservation; a gap in sequence numbers indicates events
the kernel dropped and is surfaced to the caller as a lost-events
count. -/

/-- Modelled from the spec: one encoded edge-event record as read from
the reservation's descriptor — kernel timestamp, edge kind identifier
(1 rising, 2 falling), offset, global and per-line sequence numbers. -/
structure RawEdgeEvent where
  timestampNs : Nat
  kind : Nat
  offset : Nat
  seqno : Nat
  lineSeqno : Nat
deriving DecidableEq, Repr

/-- Modelled from the spec: a decoded `EdgeEvent` — offset, edge kind,
kernel timestamp, and the sequence numbers used to detect loss. -/
structure EdgeEvent where
  offset : Nat
  rising : Bool
  timestampNs : Nat
  seqno : Nat
  lineSeqno : Nat
deriving DecidableEq, Repr

/-- Decoding of one edge-event record. -/
def decodeEdgeEvent (e : RawEdgeEvent) : EdgeEvent :=
  { offset := e.offset
  , rising := e.kind == 1
  , timestampNs := e.timestampNs
  , seqno := e.seqno
  , lineSeqno := e.lineSeqno }

/-- Modelled from the spec: consumption of the records delivered on one
reservation, in delivery order, starting after global sequence number
`prev` (0 before the first event; kernel sequence numbers start at 1).
Returns the decoded events and the lost-events count — each gap between
consecutive sequence numbers counts the events the kernel dropped
there. -/
def consumeEvents (prev : Nat) : List RawEdgeEvent → List EdgeEvent × Nat
  | [] => ([], 0)
  | e :: rest =>
      let r := consumeEvents e.seqno rest
      (decodeEdgeEvent e :: r.1, (e.seqno - prev - 1) + r.2)

/-- The global sequence number after consuming a delivery, for the loss
accounting: the last delivered sequence number, or the starting point if
nothing was delivered. -/
def lastSeq (prev : Nat) (evs : List RawEdgeEvent) : Nat :=
  (evs.map (fun e => e.seqno)).getLastD prev

/-- Along a strictly increasing delivery, the last sequence number is
at least the starting point plus the number of delivered events. -/
lemma le_lastSeq (a : Nat) (l : List RawEdgeEvent)
    (h : List.Chain' (· < ·) (a :: l.map (fun e => e.seqno))) :
    a + l.length ≤ lastSeq a l := by
  induction l generalizing a with
  | nil => simp [lastSeq]
  | cons e t ih =>
      rw [List.map_cons, List.chain'_cons] at h
      have h1 := h.1
      have h2 := ih e.seqno h.2
      have hl : lastSeq a (e :: t) = lastSeq e.seqno t := by
        unfold lastSeq
        rw [List.map_cons, List.getLastD_cons]
      rw [hl, List.length_cons]
      omega

/-- The decoded events are exactly the delivered records, in delivery
order. -/
lemma consumeEvents_fst (prev : Nat) (evs : List RawEdgeEvent) :
    (consumeEvents prev evs).1 = evs.map decodeEdgeEvent := by
  induction evs generalizing prev with
  | nil => rfl
  | cons e t ih => simp [consumeEvents, ih]

/-- Along a strictly increasing delivery the lost-events count is the
number of sequence numbers skipped between the starting point and the
last delivered event. -/
lemma consumeEvents_lost (prev : Nat) (evs : List RawEdgeEvent)
    (h : List.Chain' (· < ·) (prev :: evs.map (fun e => e.seqno))) :
    (consumeEvents prev evs).2 = lastSeq prev evs - prev - evs.length := by
  induction evs generalizing prev with
  | nil => simp [consumeEvents, lastSeq]
  | cons e t ih =>
      rw [List.map_cons, List.chain'_cons] at h
      obtain ⟨h1, hch⟩ := h
      have h2 := ih e.seqno hch
      have h3 := le_lastSeq e.seqno t hch
      have hl : lastSeq prev (e :: t) = lastSeq e.seqno t := by
        unfold lastSeq
        rw [List.map_cons, List.getLastD_cons]
      show (e.seqno - prev - 1) + (consumeEvents e.seqno t).2
        = lastSeq prev (e :: t) - prev - (e :: t).length
      rw [hl, h2, List.length_cons]
      omega

/-- C5: for a delivery of edge events on one reservation whose kernel
sequence numbers strictly increase from the consumption point, the
decoded events appear in exact delivery order with strictly increasing
global sequence numbers, and the lost-events count surfaced to the
caller equals the number of missing events — the sequence numbers
skipped between the consumption point and the last delivered event. -/
theorem C5_event_ordering_and_loss (prev : Nat) (evs : List RawEdgeEvent)
    (h : List.Chain' (· < ·) (prev :: evs.map (fun e => e.seqno))) :
    (consumeEvents prev evs).1 = evs.map decodeEdgeEvent ∧
    List.Chain' (· < ·)
      ((consumeEvents prev evs).1.map (fun e => e.seqno)) ∧
    (consumeEvents prev evs).2 = lastSeq prev evs - prev - evs.length := by
  refine ⟨consumeEvents_fst prev evs, ?_, consumeEvents_lost prev evs h⟩
  rw [consumeEvents_fst prev evs]
  have : (evs.map decodeEdgeEvent).map (fun e => e.seqno)
      = evs.map (fun e => e.seqno) := by
    rw [List.map_map]
    rfl
  rw [this]
  exact (List.chain'_cons'.mp h).2

/-- Witness for C5: four events with sequence numbers 1, 2, 5, 9
consumed from the start; delivery order and strict increase hold, and
the lost count is 5 — the five dropped events 3, 4, 6, 7, 8. -/
theorem C5_event_ordering_and_loss_witness :
    (consumeEvents 0 [⟨10, 1, 3, 1, 1⟩, ⟨20, 2, 3, 2, 2⟩,
        ⟨30, 1, 3, 5, 3⟩, ⟨40, 2, 3, 9, 4⟩]).1
      = [⟨10, 1, 3, 1, 1⟩, ⟨20, 2, 3, 2, 2⟩, ⟨30, 1, 3, 5, 3⟩,
          ⟨40, 2, 3, 9, 4⟩].map decodeEdgeEvent ∧
    List.Chain' (· < ·)
      ((consumeEvents 0 [⟨10, 1, 3, 1, 1⟩, ⟨20, 2, 3, 2, 2⟩,
          ⟨30, 1, 3, 5, 3⟩, ⟨40, 2, 3, 9, 4⟩]).1.map (fun e => e.seqno)) ∧
    (consumeEvents 0 [⟨10, 1, 3, 1, 1⟩, ⟨20, 2, 3, 2, 2⟩,
        ⟨30, 1, 3, 5, 3⟩, ⟨40, 2, 3, 9, 4⟩]).2
      = lastSeq 0 [⟨10, 1, 3, 1, 1⟩, ⟨20, 2, 3, 2, 2⟩,
          ⟨30, 1, 3, 5, 3⟩, ⟨40, 2, 3, 9, 4⟩] - 0 - 4 :=
  C5_event_ordering_and_loss 0
    [⟨10, 1, 3, 1, 1⟩, ⟨20, 2, 3, 2, 2⟩, ⟨30, 1, 3, 5, 3⟩, ⟨40, 2, 3, 9, 4⟩]
    (by simp [List.chain'_cons])

end Gpiocdev
